import Mathlib

/-!
Verification of `pymel/core/language.py` (the MEL <-> Python glue layer).

This file shallowly embeds the parts of `language.py` that the checked
properties are about: the MEL type enumeration (`MELTYPES`,
`isValidMelType`), the value marshaler (`pythonToMel`), the command
dispatcher (`Mel.__getattr__`), the error classifier inside `Mel.eval`
(output callback, substring classification, callback removal), the result
marshaling of `Mel.eval`, the `MelGlobals` name-to-type cache
(`_formatVariable`, `initVar`, `getType`, `get`, `set`) and the `Catch`
helper.  External host functionality (Maya's `mel.whatIs`, `mm.eval`,
`cmds.encodeString`, the command engine) is passed in as explicit function
arguments, so every definition stays executable.
-/

set_option autoImplicit false

namespace PymelLang

/-! ## String helpers

Python's `in` operator on strings is substring containment; `str.split()`
with no argument splits on runs of whitespace and drops empty pieces.  We
implement both over `List Char`.
-/

/-- `charsStartWith needle hay`: the char list `needle` is a prefix of `hay`. -/
def charsStartWith : List Char → List Char → Bool
  | [], _ => true
  | _ :: _, [] => false
  | a :: as, b :: bs => a == b && charsStartWith as bs

/-- `charsContain needle hay`: `needle` occurs as a contiguous sublist of `hay`
(Python `needle in hay` for strings). -/
def charsContain (needle : List Char) : List Char → Bool
  | [] => needle.isEmpty
  | b :: bs => charsStartWith needle (b :: bs) || charsContain needle bs

/-- Python `sub in s` for strings. -/
def strContains (s sub : String) : Bool :=
  charsContain sub.data s.data

/-- Worker for `pySplit`: `acc` holds the chars of the current field in
reverse. -/
def pySplitChars : List Char → List Char → List String
  | [], acc => if acc.isEmpty then [] else [String.mk acc.reverse]
  | c :: cs, acc =>
    if c.isWhitespace then
      (if acc.isEmpty then pySplitChars cs [] else String.mk acc.reverse :: pySplitChars cs [])
    else pySplitChars cs (c :: acc)

/-- Python `s.split()` : split on runs of whitespace, dropping empty fields. -/
def pySplit (s : String) : List String :=
  pySplitChars s.data []

/-- Python `s.endswith(post)`. -/
def strEndsWith (s post : String) : Bool :=
  charsStartWith post.data.reverse s.data.reverse

/-- Python `s[:-n]` (for `n ≤ len(s)`); used for `type[:-2]`. -/
def strDropRight (s : String) (n : Nat) : String :=
  String.mk (s.data.take (s.data.length - n))

/-! ## MEL type enumeration (language.py lines 21-25) -/

/-- `MELTYPES` from the source: note there is no matrix entry. -/
def MELTYPES : List String :=
  ["string", "string[]", "int", "int[]", "float", "float[]", "vector", "vector[]"]

/-- `isValidMelType(typStr)`: membership of the type string in `MELTYPES`. -/
def isValidMelType (typStr : String) : Bool :=
  MELTYPES.contains typStr

/-! ## Python values and `pythonToMel` (lines 27-36)

Python values are modelled by an inductive type: numerics (modelled by
integers; `str` of an integer is its decimal representation), strings, and
iterables (lists).  `cmds.encodeString` is host functionality and is passed
in as a function argument `encode`.
-/

inductive PyValue where
  | pyInt (n : Int)
  | pyStr (s : String)
  | pyList (xs : List PyValue)
deriving Repr

mutual

/-- `pythonToMel(arg)`: numerics print as themselves, iterables become
brace-enclosed comma-joined recursive conversions, everything else is the
encoded string form in double quotes. -/
def pythonToMel (encode : String → String) : PyValue → String
  | PyValue.pyInt n => toString n
  | PyValue.pyList xs => "\x7b" ++ String.intercalate "," (pythonToMelList encode xs) ++ "\x7d"
  | PyValue.pyStr s => "\"" ++ encode s ++ "\""

/-- The `map( pythonToMel, arg )` part of `pythonToMel` on an iterable. -/
def pythonToMelList (encode : String → String) : List PyValue → List String
  | [] => []
  | x :: xs => pythonToMel encode x :: pythonToMelList encode xs

end

/-! ## Command dispatcher: `Mel.__getattr__` (lines 406-430)

The closure `_call` built for `mel.<command>` formats the positional and
keyword arguments into a single command string and hands it to `Mel.eval`
(modelled by the argument `evalFn`).  Keyword arguments are modelled as an
association list in iteration order.
-/

/-- The `_call` closure of `Mel.__getattr__`. -/
def melGetattrCall {α : Type} (evalFn : String → α) (encode : String → String)
    (command : String) (args : List PyValue) (kwargs : List (String × PyValue)) : α :=
  let strArgs := args.map (pythonToMel encode)
  if kwargs.isEmpty then
    evalFn (command ++ "(" ++ String.intercalate "," strArgs ++ ")")
  else
    let strFlags := kwargs.map (fun kv => "-" ++ kv.1 ++ " " ++ pythonToMel encode kv.2)
    evalFn (command ++ " " ++ String.intercalate " " strFlags ++ " " ++ String.intercalate " " strArgs)

/-! ## Error classifier of `Mel.eval` (lines 466-520)

`Mel.eval` installs an `MCommandMessage` output callback, runs the command,
removes the callback on both the success and the failure path, and on
failure classifies the accumulated error text by substring matching.
-/

/-- The four error classes raised by `Mel.eval`. -/
inductive MelErrorClass where
  | unknownMelProcedure
  | melArgumentError
  | melConversionError
  | melError
deriving DecidableEq, Repr

/-- The `if 'Cannot find procedure' in msg: ... elif ... else` chain of
`Mel.eval` (lines 508-515), applied to the joined error text. -/
def classifyMelMsg (msg : String) : MelErrorClass :=
  if strContains msg "Cannot find procedure" then MelErrorClass.unknownMelProcedure
  else if strContains msg "Wrong number of arguments" then MelErrorClass.melArgumentError
  else if strContains msg "Cannot convert data" || strContains msg "Cannot cast data" then
    MelErrorClass.melConversionError
  else MelErrorClass.melError

/-- Message categories delivered to the command output callback. -/
inductive MsgType where
  | kError
  | kWarning
  | kInfo
deriving DecidableEq, Repr

/-- The `errorCallback` of `Mel.eval` (lines 488-492) folded over the output
emitted during execution: it appends every non-empty message whose type is
`kError` to the `errors` list. -/
def errorCallbackAccum (output : List (String × MsgType)) : List String :=
  output.foldl
    (fun errors p =>
      if p.2 = MsgType.kError then
        (if p.1 ≠ "" then errors ++ [p.1] else errors)
      else errors)
    []

/-- The host's callback registry: the list of registered callback ids and
the id the next registration will receive. -/
structure CallbackState where
  registered : List Nat
  nextId : Nat
deriving DecidableEq, Repr

/-- `api.MCommandMessage.addCommandOutputCallback`: registers a callback and
returns its id. -/
def addCommandOutputCallback (s : CallbackState) : Nat × CallbackState :=
  (s.nextId, { registered := s.nextId :: s.registered, nextId := s.nextId + 1 })

/-- `api.MMessage.removeCallback( id )`. -/
def removeCallback (id : Nat) (s : CallbackState) : CallbackState :=
  { s with registered := s.registered.filter (fun x => x ≠ id) }

/-- `Mel.eval` (lines 466-520), up to result marshaling: the execution of
the command by the host is modelled by `exec` (`Except.ok v` when
`MGlobal.executeCommand` succeeds with result `v`, `Except.error ()` when it
raises) together with the `output` the host delivers to the installed
callback while the command runs.  The function returns the callback registry
after the call and either the result or the raised error (its class and its
message). -/
def melEvalRun {α : Type} (output : List (String × MsgType)) (exec : Except Unit α)
    (s : CallbackState) : CallbackState × Except (MelErrorClass × String) α :=
  let idState := addCommandOutputCallback s
  let id := idState.1
  let s1 := idState.2
  let errors := errorCallbackAccum output
  match exec with
  | Except.error _ =>
    let s2 := removeCallback id s1
    let msg := String.intercalate "\n" errors
    (s2, Except.error (classifyMelMsg msg, "Error occurred during execution of MEL script: " ++ msg))
  | Except.ok v =>
    let s2 := removeCallback id s1
    (s2, Except.ok v)

/-! ## Result marshaling of `Mel.eval` (lines 522-563)

Each tagged result category is fetched into a native container and
converted.  We record, per category, which container the code allocates and
fetches into, to compare with the container the host API associates with
that category.
-/

/-- The result-type tags of `api.MCommandResult`. -/
inductive MResultType where
  | kInvalid
  | kInt
  | kIntArray
  | kDouble
  | kDoubleArray
  | kString
  | kStringArray
  | kVector
  | kVectorArray
  | kMatrix
  | kMatrixArray
deriving DecidableEq, Repr

/-- The container kinds a result can be fetched into. -/
inductive MContainer where
  | cIntPtr
  | cIntArray
  | cDoublePtr
  | cDoubleArray
  | cStringDirect
  | cStringList
  | cVector
  | cVectorArray
  | cMatrix
  | cMatrixArray
  | cNone
deriving DecidableEq, Repr

/-- The container each branch of `Mel.eval` allocates and passes to
`res.getResult` (lines 524-563 of the source).  Note the `kVectorArray`
branch allocates `api.MMatrixArray()` (line 553). -/
def evalResultContainer : MResultType → MContainer
  | MResultType.kInvalid => MContainer.cNone
  | MResultType.kInt => MContainer.cIntPtr
  | MResultType.kIntArray => MContainer.cIntArray
  | MResultType.kDouble => MContainer.cDoublePtr
  | MResultType.kDoubleArray => MContainer.cDoubleArray
  | MResultType.kString => MContainer.cStringDirect
  | MResultType.kStringArray => MContainer.cStringList
  | MResultType.kVector => MContainer.cVector
  | MResultType.kVectorArray => MContainer.cMatrixArray
  | MResultType.kMatrix => MContainer.cMatrix
  | MResultType.kMatrixArray => MContainer.cMatrixArray

/-- Modelled from the spec: the host API (`MCommandResult.getResult`, which
is not part of this repository) fetches each tagged result category only
into the container of that same category — a vector-array result is
retrieved through an `MVectorArray`, a matrix-array result through an
`MMatrixArray`, and so on.  This is the container each category requires. -/
def apiRequiredContainer : MResultType → MContainer
  | MResultType.kInvalid => MContainer.cNone
  | MResultType.kInt => MContainer.cIntPtr
  | MResultType.kIntArray => MContainer.cIntArray
  | MResultType.kDouble => MContainer.cDoublePtr
  | MResultType.kDoubleArray => MContainer.cDoubleArray
  | MResultType.kString => MContainer.cStringDirect
  | MResultType.kStringArray => MContainer.cStringList
  | MResultType.kVector => MContainer.cVector
  | MResultType.kVectorArray => MContainer.cVectorArray
  | MResultType.kMatrix => MContainer.cMatrix
  | MResultType.kMatrixArray => MContainer.cMatrixArray

/-! ## `MelGlobals` (lines 125-287)

The class attribute `typeMap` is a dictionary from names to MEL
type strings; it is modelled as an association list where an assignment
conses the new binding in front (lookup finds the most recent binding, and
every binding ever stored stays in the list, so invariants about all stored
entries can be stated directly).  The host calls (`mel.whatIs`, `mm.eval`)
are passed in as function arguments.  Raising `TypeError` is modelled by
`Except.error` carrying the message.
-/

/-- `typeMap`: variable name to MEL type string. -/
abbrev TypeMap := List (String × String)

/-- Python dictionary lookup `typeMap[variable]` (most recent binding). -/
def tmLookup (m : TypeMap) (k : String) : Option String :=
  match m with
  | [] => none
  | kv :: rest => if kv.1 = k then some kv.2 else tmLookup rest k

/-- Python dictionary assignment `typeMap[variable] = type`. -/
def tmStore (m : TypeMap) (k v : String) : TypeMap :=
  (k, v) :: m

/-- `variable.startswith('$')`. -/
def startsWithDollar (s : String) : Bool :=
  match s.data with
  | [] => false
  | c :: _ => c == '$'

/-- `MelGlobals._formatVariable` (lines 205-210): prefix a `$` unless the
name already starts with one. -/
def formatVariable (varName : String) : String :=
  if startsWithDollar varName then varName else "$" ++ varName

/-- The `TypeError` message of `initVar` (line 223). -/
def initVarErrorMsg : String :=
  "type must be a valid mel type: " ++
    String.intercalate ", " (MELTYPES.map (fun x => "\x27" ++ x ++ "\x27"))

/-- `MelGlobals.initVar` (lines 220-226): validate the type against
`validTypes` (which is `MELTYPES`), then store the formatted name in
`typeMap` and return it.  The resulting `typeMap` is returned alongside the
outcome; on the error path it is unchanged. -/
def initVar (ty varName : String) (m : TypeMap) : TypeMap × Except String String :=
  if MELTYPES.contains ty then
    let v := formatVariable varName
    (tmStore m v ty, Except.ok v)
  else
    (m, Except.error initVarErrorMsg)

/-- The `TypeError` message of `getType` (line 218). -/
def getTypeErrorMsg : String :=
  "Cannot determine type for this variable. Use melGlobals.initVar first."

/-- `MelGlobals.getType` (lines 212-218): ask the host `mel.whatIs` about
the formatted name; a two-word answer ending in `variable` yields the first
word as the type, anything else raises. -/
def getType (whatIs : String → String) (varName : String) : Except String String :=
  let v := formatVariable varName
  match pySplit (whatIs v) with
  | [w0, w1] =>
    if w1 = "variable" then Except.ok w0 else Except.error getTypeErrorMsg
  | _ => Except.error getTypeErrorMsg

/-- The `if type is None: try: type = MelGlobals.typeMap[variable] except
KeyError: type = cls.getType(variable)` block shared by `get` (lines
234-238) and `set` (lines 267-271). -/
def resolveMelType (whatIs : String → String) (varName : String) (typeOpt : Option String)
    (m : TypeMap) : Except String String :=
  match typeOpt with
  | some t => Except.ok t
  | none =>
    match tmLookup m varName with
    | some t => Except.ok t
    | none => getType whatIs varName

/-- Result of `MelGlobals.get`: either the raw host result, or, for array
types, the host result wrapped as a `MelGlobalArray(ret_type, variable, res)`. -/
inductive MelGetResult (α : Type) where
  | scalar (v : α)
  | array (retType varName : String) (v : α)
deriving DecidableEq, Repr

/-- Body of `MelGlobals.get` (lines 228-261) after the initial
`variable = cls._formatVariable(variable)`; `variable` is assumed formatted. -/
def melGlobalsGetImpl {α : Type} (whatIs : String → String) (melEval : String → α)
    (varName : String) (typeOpt : Option String) (m : TypeMap) :
    TypeMap × Except String (MelGetResult α) :=
  match resolveMelType whatIs varName typeOpt m with
  | Except.error e => (m, Except.error e)
  | Except.ok type =>
    match initVar type varName m with
    | (m1, Except.error e) => (m1, Except.error e)
    | (m1, Except.ok varName) =>
      let ret_type := type
      if strEndsWith type "[]" then
        let type := strDropRight type 2
        let proc_name := "pymel_get_global_" ++ type ++ "Array"
        let decl_name := if strEndsWith varName "[]" then varName else varName ++ "[]"
        let cmd := "global proc " ++ ret_type ++ " " ++ proc_name ++
          "() \x7b global " ++ type ++ " " ++ decl_name ++ "; return " ++ varName ++
          "; \x7d " ++ proc_name ++ "();"
        (m1, Except.ok (MelGetResult.array ret_type varName (melEval cmd)))
      else
        let proc_name := "pymel_get_global_" ++ type
        let decl_name := varName
        let cmd := "global proc " ++ ret_type ++ " " ++ proc_name ++
          "() \x7b global " ++ type ++ " " ++ decl_name ++ "; return " ++ varName ++
          "; \x7d " ++ proc_name ++ "();"
        (m1, Except.ok (MelGetResult.scalar (melEval cmd)))

/-- `MelGlobals.get` (lines 228-261). -/
def melGlobalsGet {α : Type} (whatIs : String → String) (melEval : String → α)
    (varName : String) (typeOpt : Option String) (m : TypeMap) :
    TypeMap × Except String (MelGetResult α) :=
  melGlobalsGetImpl whatIs melEval (formatVariable varName) typeOpt m

/-- Body of `MelGlobals.set` (lines 263-281) after the initial
`variable = cls._formatVariable(variable)`.  The `Except.ok` payload is the
command string handed to `mm.eval`. -/
def melGlobalsSetImpl (whatIs : String → String) (encode : String → String)
    (varName : String) (value : PyValue) (typeOpt : Option String) (m : TypeMap) :
    TypeMap × Except String String :=
  match resolveMelType whatIs varName typeOpt m with
  | Except.error e => (m, Except.error e)
  | Except.ok type =>
    match initVar type varName m with
    | (m1, Except.error e) => (m1, Except.error e)
    | (m1, Except.ok varName) =>
      if strEndsWith type "[]" then
        let type := strDropRight type 2
        let decl_name := varName ++ "[]"
        (m1, Except.ok ("global " ++ type ++ " " ++ decl_name ++ "; " ++ varName ++ "=" ++
          pythonToMel encode value ++ ";"))
      else
        let decl_name := varName
        (m1, Except.ok ("global " ++ type ++ " " ++ decl_name ++ "; " ++ varName ++ "=" ++
          pythonToMel encode value ++ ";"))

/-- `MelGlobals.set` (lines 263-281). -/
def melGlobalsSet (whatIs : String → String) (encode : String → String)
    (varName : String) (value : PyValue) (typeOpt : Option String) (m : TypeMap) :
    TypeMap × Except String String :=
  melGlobalsSetImpl whatIs encode (formatVariable varName) value typeOpt m

/-! ## `Catch` (lines 297-323)

A callable is modelled by its outcome: `some v` when it returns `v`,
`none` when it raises.  `Catch.result`/`Catch.success` are class attributes,
modelled as a state record.
-/

structure CatchState where
  result : Option PyValue
  success : Option Bool
deriving Repr

/-- `Catch.__call__` (lines 310-317). -/
def catchCall (f : Option PyValue) (s : CatchState) : CatchState × Nat :=
  match f with
  | some v => ({ result := some v, success := some true }, 0)
  | none => ({ s with success := some false }, 1)

/-- `Catch.reset` (lines 319-321). -/
def catchReset (_s : CatchState) : CatchState :=
  { result := none, success := none }

/-! ## Helper lemmas -/

/-- `pythonToMelList` is the elementwise map of `pythonToMel`. -/
theorem pythonToMelList_eq_map (encode : String → String) (xs : List PyValue) :
    pythonToMelList encode xs = xs.map (pythonToMel encode) := by
  induction xs with
  | nil => rfl
  | cons x xs ih => simp [pythonToMelList, ih]

/-- A string with a `$` consed in front starts with `$`. -/
theorem startsWithDollar_dollarAppend (v : String) : startsWithDollar ("$" ++ v) = true := by
  cases v with
  | mk l => rfl

/-- `_formatVariable` always yields a `$`-prefixed name. -/
theorem formatVariable_startsWithDollar (v : String) :
    startsWithDollar (formatVariable v) = true := by
  unfold formatVariable
  by_cases h : startsWithDollar v = true
  · rw [if_pos h]; exact h
  · rw [if_neg h]; exact startsWithDollar_dollarAppend v

/-- `_formatVariable` is idempotent. -/
theorem formatVariable_idem (v : String) :
    formatVariable (formatVariable v) = formatVariable v := by
  have h := formatVariable_startsWithDollar v
  generalize hx : formatVariable v = x at h ⊢
  unfold formatVariable
  rw [if_pos h]

/-- Prefixing the `$` by hand does not change the formatted name. -/
theorem formatVariable_dollarAppend (v : String) (h : startsWithDollar v = false) :
    formatVariable ("$" ++ v) = formatVariable v := by
  unfold formatVariable
  rw [if_pos (startsWithDollar_dollarAppend v), if_neg (by simp [h])]

/-- Lookup after a store at the same key. -/
theorem tmLookup_store_self (m : TypeMap) (k t : String) :
    tmLookup (tmStore m k t) k = some t := by
  simp [tmStore, tmLookup]

/-- A successful `melGlobalsGetImpl` leaves a valid binding for the
formatted name in the cache. -/
theorem getImpl_ok_lookup {α : Type} (whatIs : String → String) (melEval : String → α)
    (v : String) (tyOpt : Option String) (m m1 : TypeMap) (r : MelGetResult α)
    (h : melGlobalsGetImpl whatIs melEval v tyOpt m = (m1, Except.ok r)) :
    ∃ t, tmLookup m1 (formatVariable v) = some t ∧ isValidMelType t = true := by
  unfold melGlobalsGetImpl at h
  cases hty : resolveMelType whatIs v tyOpt m with
  | error e =>
    rw [hty] at h
    exact absurd (congrArg Prod.snd h) (by simp)
  | ok type =>
    rw [hty] at h
    dsimp only at h
    unfold initVar at h
    by_cases hc : MELTYPES.contains type = true
    · rw [if_pos hc] at h
      dsimp only at h
      split at h <;>
      · injection h with h1 h2
        subst h1
        exact ⟨type, by simp [tmStore, tmLookup], hc⟩
    · rw [if_neg hc] at h
      exact absurd (congrArg Prod.snd h) (by simp)

/-- A successful `melGlobalsSetImpl` leaves a valid binding for the
formatted name in the cache. -/
theorem setImpl_ok_lookup (whatIs encode : String → String)
    (v : String) (value : PyValue) (tyOpt : Option String) (m m1 : TypeMap) (c : String)
    (h : melGlobalsSetImpl whatIs encode v value tyOpt m = (m1, Except.ok c)) :
    ∃ t, tmLookup m1 (formatVariable v) = some t ∧ isValidMelType t = true := by
  unfold melGlobalsSetImpl at h
  cases hty : resolveMelType whatIs v tyOpt m with
  | error e =>
    rw [hty] at h
    exact absurd (congrArg Prod.snd h) (by simp)
  | ok type =>
    rw [hty] at h
    dsimp only at h
    unfold initVar at h
    by_cases hc : MELTYPES.contains type = true
    · rw [if_pos hc] at h
      dsimp only at h
      split at h <;>
      · injection h with h1 h2
        subst h1
        exact ⟨type, by simp [tmStore, tmLookup], hc⟩
    · rw [if_neg hc] at h
      exact absurd (congrArg Prod.snd h) (by simp)

/-- The cache after `melGlobalsGetImpl` is either untouched or extended by
one validated binding for the formatted name. -/
theorem getImpl_map_cases {α : Type} (whatIs : String → String) (melEval : String → α)
    (v : String) (tyOpt : Option String) (m : TypeMap) :
    (melGlobalsGetImpl whatIs melEval v tyOpt m).1 = m ∨
    ∃ ty, isValidMelType ty = true ∧
      (melGlobalsGetImpl whatIs melEval v tyOpt m).1 = (formatVariable v, ty) :: m := by
  unfold melGlobalsGetImpl
  cases hty : resolveMelType whatIs v tyOpt m with
  | error e => exact Or.inl rfl
  | ok type =>
    dsimp only
    unfold initVar
    by_cases hc : MELTYPES.contains type = true
    · rw [if_pos hc]
      dsimp only
      refine Or.inr ⟨type, hc, ?_⟩
      split <;> rfl
    · rw [if_neg hc]
      exact Or.inl rfl

/-- The cache after `melGlobalsSetImpl` is either untouched or extended by
one validated binding for the formatted name. -/
theorem setImpl_map_cases (whatIs encode : String → String)
    (v : String) (value : PyValue) (tyOpt : Option String) (m : TypeMap) :
    (melGlobalsSetImpl whatIs encode v value tyOpt m).1 = m ∨
    ∃ ty, isValidMelType ty = true ∧
      (melGlobalsSetImpl whatIs encode v value tyOpt m).1 = (formatVariable v, ty) :: m := by
  unfold melGlobalsSetImpl
  cases hty : resolveMelType whatIs v tyOpt m with
  | error e => exact Or.inl rfl
  | ok type =>
    dsimp only
    unfold initVar
    by_cases hc : MELTYPES.contains type = true
    · rw [if_pos hc]
      dsimp only
      refine Or.inr ⟨type, hc, ?_⟩
      split <;> rfl
    · rw [if_neg hc]
      exact Or.inl rfl

/-! ## Claims -/

/-- C1: when command execution fails, `Mel.eval` raises an error whose class
is the substring classification of the accumulated diagnostic text: a text
containing `Cannot find procedure` gives `UnknownMelProcedure`; otherwise
one containing `Wrong number of arguments` gives `MelArgumentError`;
otherwise one containing `Cannot convert data` or `Cannot cast data` gives
`MelConversionError`; otherwise the generic `MelError`. -/
theorem c1_error_classification (output : List (String × MsgType)) (s : CallbackState)
    (msg : String) :
    ((melEvalRun output (Except.error () : Except Unit Unit) s).2 =
      Except.error
        (classifyMelMsg (String.intercalate "\n" (errorCallbackAccum output)),
         "Error occurred during execution of MEL script: " ++
           String.intercalate "\n" (errorCallbackAccum output))) ∧
    (strContains msg "Cannot find procedure" = true →
      classifyMelMsg msg = MelErrorClass.unknownMelProcedure) ∧
    (strContains msg "Cannot find procedure" = false →
      strContains msg "Wrong number of arguments" = true →
      classifyMelMsg msg = MelErrorClass.melArgumentError) ∧
    (strContains msg "Cannot find procedure" = false →
      strContains msg "Wrong number of arguments" = false →
      (strContains msg "Cannot convert data" = true ∨
        strContains msg "Cannot cast data" = true) →
      classifyMelMsg msg = MelErrorClass.melConversionError) ∧
    (strContains msg "Cannot find procedure" = false →
      strContains msg "Wrong number of arguments" = false →
      strContains msg "Cannot convert data" = false →
      strContains msg "Cannot cast data" = false →
      classifyMelMsg msg = MelErrorClass.melError) := by
  refine ⟨rfl, ?_, ?_, ?_, ?_⟩
  · intro h1
    simp [classifyMelMsg, h1]
  · intro h1 h2
    simp [classifyMelMsg, h1, h2]
  · intro h1 h2 h3
    rcases h3 with h3 | h3 <;> simp [classifyMelMsg, h1, h2, h3]
  · intro h1 h2 h3 h4
    simp [classifyMelMsg, h1, h2, h3, h4]

/-- C1 witness: a failing execution whose diagnostic names a missing
procedure is classified as an unknown procedure. -/
theorem c1_error_classification_witness :
    classifyMelMsg "Cannot find procedure \x22foo\x22." =
      MelErrorClass.unknownMelProcedure :=
  (c1_error_classification [] { registered := [], nextId := 0 }
    "Cannot find procedure \x22foo\x22.").2.1 (by rfl)

/-- C6: the output callback of `Mel.eval` is transient: whether the
execution returns or raises, the callback registry after `Mel.eval` equals
the registry before the call, and the id registered for the call is gone. -/
theorem c6_callback_transient {α : Type} (output : List (String × MsgType))
    (exec : Except Unit α) (s : CallbackState) (h : s.nextId ∉ s.registered) :
    (melEvalRun output exec s).1.registered = s.registered ∧
    s.nextId ∉ (melEvalRun output exec s).1.registered := by
  have hfil : (s.nextId :: s.registered).filter (fun x => x ≠ s.nextId) = s.registered := by
    rw [List.filter_cons_of_neg (by simp)]
    exact List.filter_eq_self.mpr (fun a ha => by
      simp only [ne_eq, decide_eq_true_eq]
      exact fun e => h (e ▸ ha))
  have hreg : (melEvalRun output exec s).1.registered = s.registered := by
    cases exec <;>
      simpa [melEvalRun, addCommandOutputCallback, removeCallback] using hfil
  exact ⟨hreg, hreg ▸ h⟩

/-- C6 witness: a concrete succeeding call and a concrete failing call both
leave the (empty) registry as they found it. -/
theorem c6_callback_transient_witness :
    (melEvalRun [] (Except.ok 0 : Except Unit Nat)
      { registered := [], nextId := 0 }).1.registered = [] ∧
    (melEvalRun [("x", MsgType.kError)] (Except.error () : Except Unit Nat)
      { registered := [], nextId := 0 }).1.registered = [] :=
  ⟨(c6_callback_transient [] (Except.ok 0) { registered := [], nextId := 0 }
      (by simp)).1,
   (c6_callback_transient [("x", MsgType.kError)] (Except.error ())
      { registered := [], nextId := 0 } (by simp)).1⟩

/-- C9: `initVar` raises `TypeError` for every type string outside the valid
MEL type list and leaves the cache unchanged in that case; for every valid
type it stores the mapping under the normalized name and returns that
normalized `$`-prefixed name. -/
theorem c9_initVar_validation (ty v : String) (m : TypeMap) :
    (isValidMelType ty = false →
      initVar ty v m = (m, Except.error initVarErrorMsg)) ∧
    (isValidMelType ty = true →
      initVar ty v m = (tmStore m (formatVariable v) ty, Except.ok (formatVariable v)) ∧
      startsWithDollar (formatVariable v) = true) := by
  constructor
  · intro h
    unfold isValidMelType at h
    unfold initVar
    rw [h]
    simp
  · intro h
    unfold isValidMelType at h
    refine ⟨?_, formatVariable_startsWithDollar v⟩
    unfold initVar
    rw [h]
    simp

/-- C9 witness: an invalid type is rejected without touching the cache, a
valid one is stored under the `$`-prefixed name. -/
theorem c9_initVar_validation_witness :
    initVar "matrix" "gM" [] = ([], Except.error initVarErrorMsg) ∧
    initVar "int" "gX" [] = ([("$gX", "int")], Except.ok "$gX") :=
  ⟨(c9_initVar_validation "matrix" "gM" []).1 rfl,
   ((c9_initVar_validation "int" "gX" []).2 rfl).1.trans rfl⟩

/-- C7: the name-to-type cache is lazily populated and queried by string
key: a successful `MelGlobals.get` or `MelGlobals.set` leaves the cache
containing the normalized `$`-prefixed name bound to the variable's MEL
type, and every entry ever stored (by `get`, `set` or `initVar`, the only
writers) binds a normalized name to a valid MEL type string. -/
theorem c7_typeMap_cache {α : Type} (whatIs : String → String) (melEval : String → α)
    (encode : String → String) (v : String) (tyOpt : Option String) (value : PyValue)
    (m m1 m2 : TypeMap) (r : MelGetResult α) (c : String) :
    (melGlobalsGet whatIs melEval v tyOpt m = (m1, Except.ok r) →
      ∃ t, tmLookup m1 (formatVariable v) = some t ∧ isValidMelType t = true) ∧
    (melGlobalsSet whatIs encode v value tyOpt m = (m2, Except.ok c) →
      ∃ t, tmLookup m2 (formatVariable v) = some t ∧ isValidMelType t = true) ∧
    ((∀ kv ∈ m, startsWithDollar kv.1 = true ∧ isValidMelType kv.2 = true) →
      (∀ kv ∈ (melGlobalsGet whatIs melEval v tyOpt m).1,
        startsWithDollar kv.1 = true ∧ isValidMelType kv.2 = true) ∧
      (∀ kv ∈ (melGlobalsSet whatIs encode v value tyOpt m).1,
        startsWithDollar kv.1 = true ∧ isValidMelType kv.2 = true) ∧
      (∀ ty2 : String, ∀ kv ∈ (initVar ty2 v m).1,
        startsWithDollar kv.1 = true ∧ isValidMelType kv.2 = true)) := by
  refine ⟨?_, ?_, ?_⟩
  · intro h
    unfold melGlobalsGet at h
    have hx := getImpl_ok_lookup whatIs melEval (formatVariable v) tyOpt m m1 r h
    rwa [formatVariable_idem] at hx
  · intro h
    unfold melGlobalsSet at h
    have hx := setImpl_ok_lookup whatIs encode (formatVariable v) value tyOpt m m2 c h
    rwa [formatVariable_idem] at hx
  · intro hm
    have hnew : ∀ (ty : String) (kv : String × String),
        isValidMelType ty = true → kv ∈ (formatVariable v, ty) :: m →
        startsWithDollar kv.1 = true ∧ isValidMelType kv.2 = true := by
      intro ty kv hty hkv
      rcases List.mem_cons.mp hkv with hkv | hkv
      · subst hkv
        exact ⟨formatVariable_startsWithDollar v, hty⟩
      · exact hm kv hkv
    refine ⟨?_, ?_, ?_⟩
    · unfold melGlobalsGet
      rcases getImpl_map_cases whatIs melEval (formatVariable v) tyOpt m with hc | ⟨ty, hty, hc⟩
      · simp only [hc]
        exact hm
      · simp only [hc, formatVariable_idem]
        exact fun kv hkv => hnew ty kv hty hkv
    · unfold melGlobalsSet
      rcases setImpl_map_cases whatIs encode (formatVariable v) value tyOpt m with hc | ⟨ty, hty, hc⟩
      · simp only [hc]
        exact hm
      · simp only [hc, formatVariable_idem]
        exact fun kv hkv => hnew ty kv hty hkv
    · intro ty2
      unfold initVar
      by_cases hc : MELTYPES.contains ty2 = true
      · rw [if_pos hc]
        dsimp only [tmStore]
        exact fun kv hkv => hnew ty2 kv hc hkv
      · rw [if_neg hc]
        exact hm

/-- C7 witness: getting an `int` global through a host that reports
`int variable` populates the cache with a valid normalized binding, and the
all-entries invariant holds for the resulting cache. -/
theorem c7_typeMap_cache_witness :
    (∃ t, tmLookup [("$gX", "int")] "$gX" = some t ∧ isValidMelType t = true) ∧
    (∀ kv ∈ (melGlobalsGet (fun _ => "int variable") (fun c => c) "gX" none
        ([] : TypeMap)).1,
      startsWithDollar kv.1 = true ∧ isValidMelType kv.2 = true) :=
  ⟨(c7_typeMap_cache (fun _ => "int variable") (fun c => c) (fun s => s) "gX" none
      (PyValue.pyInt 3) [] [("$gX", "int")] [("$gX", "int")]
      (MelGetResult.scalar
        "global proc int pymel_get_global_int() \x7b global int $gX; return $gX; \x7d pymel_get_global_int();")
      "global int $gX; $gX=3;").1 rfl,
   ((c7_typeMap_cache (fun _ => "int variable") (fun c => c) (fun s => s) "gX" none
      (PyValue.pyInt 3) [] [("$gX", "int")] [("$gX", "int")]
      (MelGetResult.scalar
        "global proc int pymel_get_global_int() \x7b global int $gX; return $gX; \x7d pymel_get_global_int();")
      "global int $gX; $gX=3;").2.2 (by simp)).1⟩

/-- C8: `_formatVariable` is idempotent and makes the leading `$` optional:
for every name `v` not starting with `$`, `get`, `set`, `getType` and
`initVar` behave identically on `v` and on `"$" ++ v`. -/
theorem c8_formatVariable_normalization :
    (∀ v, formatVariable (formatVariable v) = formatVariable v) ∧
    (∀ v, startsWithDollar v = false →
      (∀ (α : Type) (whatIs : String → String) (melEval : String → α)
          (tyOpt : Option String) (m : TypeMap),
        melGlobalsGet whatIs melEval v tyOpt m =
          melGlobalsGet whatIs melEval ("$" ++ v) tyOpt m) ∧
      (∀ (whatIs encode : String → String) (value : PyValue)
          (tyOpt : Option String) (m : TypeMap),
        melGlobalsSet whatIs encode v value tyOpt m =
          melGlobalsSet whatIs encode ("$" ++ v) value tyOpt m) ∧
      (∀ whatIs : String → String, getType whatIs v = getType whatIs ("$" ++ v)) ∧
      (∀ (ty : String) (m : TypeMap), initVar ty v m = initVar ty ("$" ++ v) m)) := by
  refine ⟨formatVariable_idem, ?_⟩
  intro v hv
  have hf : formatVariable ("$" ++ v) = formatVariable v := formatVariable_dollarAppend v hv
  refine ⟨?_, ?_, ?_, ?_⟩
  · intro α whatIs melEval tyOpt m
    unfold melGlobalsGet
    rw [hf]
  · intro whatIs encode value tyOpt m
    unfold melGlobalsSet
    rw [hf]
  · intro whatIs
    unfold getType
    rw [hf]
  · intro ty m
    unfold initVar
    rw [hf]

/-- C8 witness: idempotence and `$`-optionality at a concrete name. -/
theorem c8_formatVariable_normalization_witness :
    formatVariable (formatVariable "gX") = formatVariable "gX" ∧
    initVar "int" "gX" [] = initVar "int" ("$" ++ "gX") [] ∧
    getType (fun _ => "int variable") "gX" =
      getType (fun _ => "int variable") ("$" ++ "gX") :=
  ⟨c8_formatVariable_normalization.1 "gX",
   (c8_formatVariable_normalization.2 "gX" rfl).2.2.2 "int" [],
   (c8_formatVariable_normalization.2 "gX" rfl).2.2.1 (fun _ => "int variable")⟩

/-- C5 counterexample: the claim says `isValidMelType` returns `True` for
the ten type strings including `matrix` and `matrix[]`, but `MELTYPES` in
the source has no matrix entry, so `isValidMelType "matrix"` is `False`. -/
theorem c5_matrix_counterexample :
    isValidMelType "matrix" = false ∧ isValidMelType "matrix[]" = false := by
  constructor <;> rfl

/-- C5 (amended): the enumeration of recognized MEL value categories
comprises string, int, float, vector, and their array forms (no matrix
categories); `isValidMelType` returns `True` for exactly the eight type
strings of `MELTYPES` and `False` for every other string. -/
theorem c5_isValidMelType_characterization (s : String) :
    isValidMelType s = true ↔
      (s = "string" ∨ s = "string[]" ∨ s = "int" ∨ s = "int[]" ∨
       s = "float" ∨ s = "float[]" ∨ s = "vector" ∨ s = "vector[]") := by
  simp [isValidMelType, MELTYPES]

/-- C4: `pythonToMel` renders a numeric value as its decimal string
representation, an iterable as the brace-enclosed comma-join of the
recursive conversions of its elements, and any other value as its encoded
string form in double quotes. -/
theorem c4_pythonToMel_shape (encode : String → String) (n : Int) (s : String)
    (xs : List PyValue) :
    pythonToMel encode (PyValue.pyInt n) = toString n ∧
    pythonToMel encode (PyValue.pyList xs) =
      "\x7b" ++ String.intercalate "," (xs.map (pythonToMel encode)) ++ "\x7d" ∧
    pythonToMel encode (PyValue.pyStr s) = "\"" ++ encode s ++ "\"" := by
  refine ⟨rfl, ?_, rfl⟩
  rw [pythonToMel, pythonToMelList_eq_map]

/-- C3: `Mel.__getattr__` builds a function-call-style string
`command(arg1,arg2,...)` when no keyword arguments are supplied and a
flag-style string `command -key value ... args...` when keyword arguments
are supplied, every argument and flag value converted by `pythonToMel`, and
hands exactly that string to `Mel.eval` (the `evalFn` argument). -/
theorem c3_getattr_dispatch {α : Type} (evalFn : String → α) (encode : String → String)
    (command : String) (args : List PyValue) (kwargs : List (String × PyValue)) :
    (kwargs = [] →
      melGetattrCall evalFn encode command args kwargs =
        evalFn (command ++ "(" ++
          String.intercalate "," (args.map (pythonToMel encode)) ++ ")")) ∧
    (kwargs ≠ [] →
      melGetattrCall evalFn encode command args kwargs =
        evalFn (command ++ " " ++
          String.intercalate " "
            (kwargs.map (fun kv => "-" ++ kv.1 ++ " " ++ pythonToMel encode kv.2)) ++
          " " ++ String.intercalate " " (args.map (pythonToMel encode)))) := by
  constructor
  · intro h
    subst h
    rfl
  · intro h
    have he : kwargs.isEmpty = false := by
      cases kwargs with
      | nil => exact absurd rfl h
      | cons kv rest => rfl
    simp [melGetattrCall, he]

/-- C3 witness: concrete dispatches of both shapes. -/
theorem c3_getattr_dispatch_witness :
    melGetattrCall id id "sphere" [PyValue.pyInt 1] [] = "sphere(1)" ∧
    melGetattrCall id id "sphere" [PyValue.pyInt 1] [("r", PyValue.pyInt 2)] =
      "sphere -r 2 1" := by
  constructor
  · rw [(c3_getattr_dispatch id id "sphere" [PyValue.pyInt 1] []).1 rfl]
    rfl
  · rw [(c3_getattr_dispatch id id "sphere" [PyValue.pyInt 1] [("r", PyValue.pyInt 2)]).2
      (by simp)]
    rfl

/-- C2 (code bug): `Mel.eval` is meant to fetch every tagged result into the
container of its own category and convert it (vector-array results into a
list of `Vector` values), and does so for every category except
`kVectorArray`: there it allocates an `MMatrixArray` (source line 553)
instead of the `MVectorArray` the host API requires, so the vector-array
elements are never retrieved as vectors. -/
theorem c2_vectorArray_container_bug :
    evalResultContainer MResultType.kVectorArray = MContainer.cMatrixArray ∧
    apiRequiredContainer MResultType.kVectorArray = MContainer.cVectorArray ∧
    evalResultContainer MResultType.kVectorArray ≠
      apiRequiredContainer MResultType.kVectorArray ∧
    (∀ t : MResultType, t ≠ MResultType.kVectorArray →
      evalResultContainer t = apiRequiredContainer t) := by
  refine ⟨rfl, rfl, by decide, ?_⟩
  intro t ht
  cases t <;> first | rfl | exact absurd rfl ht

/-- C2 witness: the non-buggy categories agree with the API containers. -/
theorem c2_vectorArray_container_bug_witness :
    evalResultContainer MResultType.kIntArray = apiRequiredContainer MResultType.kIntArray :=
  c2_vectorArray_container_bug.2.2.2 MResultType.kIntArray (by decide)

/-- C10: `catch(func)` returns 0, stores the returned value in
`Catch.result` and sets `Catch.success` to `True` when `func()` returns;
it returns 1 and sets `Catch.success` to `False` when `func()` raises; and
`catch.reset()` sets both back to `None`. -/
theorem c10_catch_behavior (f : Option PyValue) (s : CatchState) (v : PyValue) :
    (f = some v →
      catchCall f s = ({ result := some v, success := some true }, 0)) ∧
    (f = none →
      (catchCall f s).2 = 1 ∧ (catchCall f s).1.success = some false ∧
      (catchCall f s).1.result = s.result) ∧
    catchReset s = { result := none, success := none } := by
  refine ⟨?_, ?_, rfl⟩
  · intro h
    subst h
    rfl
  · intro h
    subst h
    exact ⟨rfl, rfl, rfl⟩

/-- C10 witness: a returning callable and a raising callable. -/
theorem c10_catch_behavior_witness :
    catchCall (some (PyValue.pyInt 7)) { result := none, success := none } =
      ({ result := some (PyValue.pyInt 7), success := some true }, 0) ∧
    (catchCall none { result := some (PyValue.pyInt 7), success := some true }).2 = 1 :=
  ⟨(c10_catch_behavior (some (PyValue.pyInt 7))
      { result := none, success := none } (PyValue.pyInt 7)).1 rfl,
   ((c10_catch_behavior none
      { result := some (PyValue.pyInt 7), success := some true } (PyValue.pyInt 7)).2.1 rfl).1⟩

end PymelLang
